import Mathlib

/-!
Verification development for the play-event ingestion, aggregation and
cross-device reconciliation engine of the wispie server.

The Python source is shallowly embedded: floats are modelled as exact
rationals, Python `round(x, 2)` as half-to-even rounding of `x * 100`,
SQL tables as lists of rows, JSON summary dictionaries as a structure
whose fields always exist (the source defaults every missing key), and
optional numeric fields (which the source checks with `isinstance`)
as `Option` values.  All definitions are translated from
`src/server/user_service.py`, `src/server/main.py` and
`src/server/migrate_skips_logic.py`.
-/

/-- Round a rational to the nearest integer, ties to even, matching
Python's `round` on exact values. -/
def rintHE (x : ℚ) : ℤ :=
  let f := Int.floor x
  let r := x - (f : ℚ)
  if r < 1/2 then f
  else if (1:ℚ)/2 < r then f + 1
  else if f % 2 = 0 then f else f + 1

/-- Python `round(x, 2)` on exact rational values. -/
def round2 (x : ℚ) : ℚ := (rintHE (x * 100) : ℚ) / 100

/-- A buffered client report (`models.StatsEntry`).  `platform` is an
optional string; `foreground_duration` and `background_duration` are
`none` when the client sent no number (the source's default is the
string "unknown", which fails its `isinstance` number checks). -/
structure StatsEntry where
  session_id : String
  song_filename : String
  duration_played : ℚ
  total_length : ℚ
  event_type : String
  timestamp : ℚ
  platform : Option String
  foreground_duration : Option ℚ
  background_duration : Option ℚ
deriving DecidableEq

/-- A durable play-event row (`db_models.PlayEvent`), without the
autoincrement surrogate id. -/
structure PlayEvent where
  session_id : String
  song_filename : String
  event_type : String
  timestamp : ℚ
  duration_played : ℚ
  total_length : ℚ
  play_ratio : ℚ
  foreground_duration : Option ℚ
  background_duration : Option ℚ
deriving DecidableEq

/-- A durable play-session row (`db_models.PlaySession`). -/
structure PlaySession where
  id : String
  start_time : ℚ
  end_time : ℚ
  platform : String
deriving DecidableEq

/-- The per-user stats database: the `playsession` and `playevent`
tables, as lists in insertion order. -/
structure StatsStore where
  sessions : List PlaySession
  events : List PlayEvent
deriving DecidableEq

/-- One entry of the shuffle history list.  The source tolerates both
timestamped dict entries and legacy bare-string entries. -/
inductive HistItem where
  | entry (filename : String) (timestamp : ℚ)
  | legacy (filename : String)
deriving DecidableEq

/-- The filename an item refers to, for both shapes. -/
def HistItem.name : HistItem → String
  | .entry f _ => f
  | .legacy f => f

/-- The user-set shuffle configuration dictionary.  Only the
`history_limit` key is ever read by the engine; the other keys are
carried opaquely. -/
structure ShuffleConfig where
  history_limit : Option ℕ
  rest : List (String × String)
deriving DecidableEq

/-- `config.get("history_limit", 50)`. -/
def ShuffleConfig.limit (c : ShuffleConfig) : ℕ := c.history_limit.getD 50

structure ShuffleState where
  config : ShuffleConfig
  history : List HistItem
deriving DecidableEq

/-- The cached per-user summary (`[user]_final_stats.json`).  The
source defaults every missing key to zero or an empty container, so
all fields are always present here. -/
structure DerivedSummary where
  total_play_time : ℚ
  total_sessions : ℕ
  total_background_playtime : ℚ
  total_foreground_playtime : ℚ
  total_songs_played : ℕ
  total_songs_played_ratio_over_025 : ℕ
  total_skipped : ℕ
  platform_usage : List (String × ℕ)
  shuffle_state : ShuffleState
deriving DecidableEq

def emptyShuffleConfig : ShuffleConfig := ⟨none, []⟩

/-- The summary a fresh user starts with, with all counter keys
defaulted as the flush path does. -/
def emptySummary : DerivedSummary :=
  ⟨0, 0, 0, 0, 0, 0, 0, [], ⟨emptyShuffleConfig, []⟩⟩

def emptyStore : StatsStore := ⟨[], []⟩

/-- Numeric value of an optional field, absent treated as 0
(the source's `isinstance` guard with fallback 0). -/
def optVal (x : Option ℚ) : ℚ := x.getD 0

/-- Python `stats.platform or "unknown"`: `None` and the empty string
are falsy. -/
def platOr (p : Option String) : String :=
  match p with
  | none => "unknown"
  | some s => if s = "" then "unknown" else s

/-- `UserService.append_stats`: reports with non-positive duration are
dropped unless they are favorite markers; everything else is appended
to the user's buffer verbatim. -/
def append_stats (buffer : List StatsEntry) (stats : StatsEntry) : List StatsEntry :=
  if stats.duration_played ≤ 0 ∧ stats.event_type ≠ "favorite" then buffer
  else buffer ++ [stats]

/-- Stable insertion of a report into a timestamp-sorted list, placed
after all reports with timestamp ≤ its own. -/
def insertByTs (x : StatsEntry) : List StatsEntry → List StatsEntry
  | [] => [x]
  | y :: ys => if x.timestamp < y.timestamp then x :: y :: ys else y :: insertByTs x ys

/-- `raw_events.sort(key=lambda x: x.timestamp)` (stable). -/
def sortByTs (l : List StatsEntry) : List StatsEntry :=
  l.foldl (fun acc x => insertByTs x acc) []

/-- The coalescer's in-place merge of a next report into the current
accumulator: durations summed, foreground/background summed with
absent-as-0 (the merged value is always a number), and the later
report's type, timestamp and platform taken. -/
def mergePair (cur next : StatsEntry) : StatsEntry :=
  { cur with
    duration_played := cur.duration_played + next.duration_played
    foreground_duration := some (optVal cur.foreground_duration + optVal next.foreground_duration)
    background_duration := some (optVal cur.background_duration + optVal next.background_duration)
    event_type := next.event_type
    timestamp := next.timestamp
    platform := next.platform }

/-- Does a next report continue the current accumulator's run? -/
def sameRun (next cur : StatsEntry) : Prop :=
  next.session_id = cur.session_id ∧ next.song_filename = cur.song_filename

instance (next cur : StatsEntry) : Decidable (sameRun next cur) := by
  unfold sameRun; infer_instance

/-- The coalescer's walk: merge each next report into the accumulator
while it matches, emit the accumulator when it does not. -/
def coalesceGo (cur : StatsEntry) : List StatsEntry → List StatsEntry
  | [] => [cur]
  | n :: rest =>
    if sameRun n cur then coalesceGo (mergePair cur n) rest
    else cur :: coalesceGo n rest

/-- The event coalescer of `UserService.flush_stats` (step 0), applied
to one user's batch. -/
def coalesce : List StatsEntry → List StatsEntry
  | [] => []
  | e :: rest => coalesceGo e rest

/-- The tail-completion heuristic of the flush classifier: a skip
within 10 seconds of the end of a track of known positive length is
reclassified as a completion (the source mutates `stats.event_type`
in place, so later summary steps see the reclassified type). -/
def classify (s : StatsEntry) : StatsEntry :=
  if s.total_length > 0 ∧ s.total_length - s.duration_played ≤ 10 then
    { s with event_type := "complete" }
  else s

/-- Building the durable `PlayEvent` row from a (classified) coalesced
report: the ratio is recomputed from the coalesced totals and every
numeric field is rounded to 2 decimals at write time. -/
def mkPlayEvent (s : StatsEntry) : PlayEvent :=
  let ratio := if s.total_length > 0 then s.duration_played / s.total_length else 0
  { session_id := s.session_id
    song_filename := s.song_filename
    event_type := s.event_type
    timestamp := round2 s.timestamp
    duration_played := round2 s.duration_played
    total_length := round2 s.total_length
    play_ratio := round2 ratio
    foreground_duration := s.foreground_duration.map round2
    background_duration := s.background_duration.map round2 }

/-- Widening an existing session row by a report: min/max the time
range and replace an unknown platform by a known one. -/
def widenSession (s : StatsEntry) (ps : PlaySession) : PlaySession :=
  if ps.id == s.session_id then
    { ps with
      start_time := if s.timestamp < ps.start_time then s.timestamp else ps.start_time
      end_time := if s.timestamp > ps.end_time then s.timestamp else ps.end_time
      platform :=
        if ps.platform = "unknown" ∧ platOr s.platform ≠ "unknown" then
          platOr s.platform
        else ps.platform }
  else ps

/-- Session create-or-widen logic of the flush SQL step. -/
def upsertSession (store : StatsStore) (s : StatsEntry) : StatsStore :=
  match store.sessions.find? (fun ps => ps.id == s.session_id) with
  | none =>
    { store with sessions := store.sessions ++
        [⟨s.session_id, s.timestamp, s.timestamp, platOr s.platform⟩] }
  | some _ =>
    { store with sessions := store.sessions.map (widenSession s) }

/-- One event of the flush SQL step: upsert the session, reclassify,
append the rounded durable row, and record the reclassified entry. -/
def flushStep1F (acc : StatsStore × List StatsEntry) (e : StatsEntry) :
    StatsStore × List StatsEntry :=
  let st1 := upsertSession acc.1 e
  let c := classify e
  ({ st1 with events := st1.events ++ [mkPlayEvent c] }, acc.2 ++ [c])

/-- Step 1 of the flush for one user: for each coalesced event, upsert
its session, reclassify, and append the rounded durable row.  Returns
the updated store and the reclassified entries (the same mutated
objects the summary step then reads). -/
def flushStep1 (store : StatsStore) (evs : List StatsEntry) :
    StatsStore × List StatsEntry :=
  evs.foldl flushStep1F (store, [])

/-- `platform_usage[p] = platform_usage.get(p, 0) + 1` on the
association list modelling the JSON dictionary. -/
def bumpUsage (u : List (String × ℕ)) (p : String) : List (String × ℕ) :=
  if u.any (fun kv => kv.1 == p) then
    u.map (fun kv => if kv.1 == p then (kv.1, kv.2 + 1) else kv)
  else u ++ [(p, 1)]

/-- The shuffle-history update of the summary builder: remove any
existing entry (dict or legacy string) for the played filename, insert
the new timestamped entry at the front, then truncate to the config's
history limit when the length exceeds it. -/
def historyUpdate (sh : ShuffleState) (fn : String) (ts : ℚ) : ShuffleState :=
  let history := sh.history.filter (fun h => h.name ≠ fn)
  let history := HistItem.entry fn ts :: history
  let limit := sh.config.limit
  let history := if history.length > limit then history.take limit else history
  { sh with history := history }

/-- The per-event metric updates of the flush summary step: play-time
totals, meaningful-play and skip counters, shuffle history, and the
ratio-over-0.25 counter, in source order. -/
def summaryStepA (sum : DerivedSummary) (stats : StatsEntry) : DerivedSummary :=
  let sum := { sum with
    total_play_time := round2 (sum.total_play_time + stats.duration_played)
    total_foreground_playtime :=
      round2 (sum.total_foreground_playtime + optVal stats.foreground_duration)
    total_background_playtime :=
      round2 (sum.total_background_playtime + optVal stats.background_duration) }
  let ratio := if stats.total_length > 0 then stats.duration_played / stats.total_length else 0
  let meaningful := ratio > 1/4
  let sum := if meaningful then
    { sum with total_songs_played := sum.total_songs_played + 1 } else sum
  let sum := if stats.event_type = "skip" ∧ ratio < 1/5 then
    { sum with total_skipped := sum.total_skipped + 1 } else sum
  let sum := if meaningful ∨ stats.duration_played > 5 then
    { sum with shuffle_state :=
        historyUpdate sum.shuffle_state stats.song_filename stats.timestamp }
    else sum
  if stats.event_type ≠ "favorite" ∧ ratio > 1/4 then
    { sum with total_songs_played_ratio_over_025 :=
        sum.total_songs_played_ratio_over_025 + 1 }
  else sum

/-- Step 2 of the flush for one user, per reclassified event: the
metric updates followed by the session/platform logic.  `store` is the
stats store as it stands after the SQL step of the same flush;
`acc.2` is the `processed_sessions` set, modelled as a list. -/
def summaryStep (store : StatsStore) (acc : DerivedSummary × List String)
    (stats : StatsEntry) : DerivedSummary × List String :=
  let sum := summaryStepA acc.1 stats
  if stats.session_id ∈ acc.2 then (sum, acc.2)
  else
    let sum :=
      if (store.sessions.find? (fun ps => ps.id == stats.session_id)).isNone then
        { sum with
          total_sessions := sum.total_sessions + 1
          platform_usage := bumpUsage sum.platform_usage (platOr stats.platform) }
      else sum
    (sum, acc.2 ++ [stats.session_id])

/-- `UserService.flush_stats` restricted to one user's batch: sort and
coalesce the buffered reports, run the SQL step, then fold the summary
step over the reclassified events, querying the post-SQL-step store
for session newness.  Returns the updated store and summary; the
buffer is drained. -/
def flush_stats (store : StatsStore) (summary : DerivedSummary)
    (buffer : List StatsEntry) : StatsStore × DerivedSummary :=
  let evs := coalesce (sortByTs buffer)
  let r := flushStep1 store evs
  (r.1, (r.2.foldl (summaryStep r.1) (summary, [])).1)

/-- `UserService.get_stats_summary`: flush, then read the summary. -/
def get_stats_summary (store : StatsStore) (summary : DerivedSummary)
    (buffer : List StatsEntry) : DerivedSummary :=
  (flush_stats store summary buffer).2

/-- Session merge of `upload_user_db` for `db_type = "stats"`: insert
a foreign session only when no row with its id exists in the evolving
server table. -/
def mergeSessions (lrows : List PlaySession) (foreign : List PlaySession) :
    List PlaySession :=
  foreign.foldl
    (fun acc s => if acc.any (fun a => a.id == s.id) then acc else acc ++ [s])
    lrows

/-- Event merge of `upload_user_db`: insert a foreign event only when
no row with its exact (timestamp, song_filename) pair exists in the
evolving server table. -/
def mergeEvents (lrows : List PlayEvent) (foreign : List PlayEvent) :
    List PlayEvent :=
  foreign.foldl
    (fun acc e =>
      if acc.any (fun a => a.timestamp == e.timestamp ∧ a.song_filename == e.song_filename)
      then acc else acc ++ [e])
    lrows

/-- The additive stats merge of `upload_user_db`. -/
def mergeStats (lstore foreign : StatsStore) : StatsStore :=
  ⟨mergeSessions lstore.sessions foreign.sessions,
   mergeEvents lstore.events foreign.events⟩

/-- The methods defined on `UserService` in `user_service.py`. -/
def userServiceMethods : List String :=
  ["__init__", "set_discord_queue", "log_to_discord", "_get_final_stats_path",
   "_get_summary_no_flush", "_hash_password", "_verify_password", "get_user",
   "create_user", "authenticate_user", "update_password", "update_username",
   "append_stats", "get_stats_summary", "update_shuffle_state", "flush_stats",
   "get_play_counts", "get_fun_stats", "get_favorites", "add_favorite",
   "add_favorite_without_stats", "remove_favorite", "get_suggest_less",
   "add_suggest_less", "remove_suggest_less", "record_upload",
   "get_custom_title", "get_uploader", "get_sync_hashes"]

/-- The stats branch of the `upload_user_db` endpoint.  With no local
store file the uploaded database is installed wholesale.  Otherwise
the additive merge runs and is committed; the endpoint then invokes
`user_service.recalculate_final_stats`, and since `UserService`
defines no such attribute the call raises, the handler's except branch
re-raises HTTP 500 "Stats merge failed: ...", and the already
committed merged rows stay in place. -/
def upload_user_db_stats (lstore : Option StatsStore) (foreign : StatsStore) :
    Option StatsStore × Except String String :=
  match lstore with
  | none => (some foreign, Except.ok "stats created")
  | some l =>
    let merged := mergeStats l foreign
    if userServiceMethods.contains "recalculate_final_stats" then
      (some merged, Except.ok "stats merged")
    else
      (some merged, Except.error "Stats merge failed")

/-- Step 1 of `migrate_skips_logic.rebuild_user_stats`: retroactively
reclassify stored skip rows that ended within 10 seconds of the end of
a track of known positive length. -/
def rebuildFixSkip (e : PlayEvent) : PlayEvent :=
  if e.event_type = "skip" ∧ e.total_length > 0 ∧ e.total_length - e.duration_played ≤ 10
  then { e with event_type := "complete" }
  else e

/-- Stable insertion sort of durable events by timestamp, modelling
the rebuild's `ORDER BY timestamp` fetch. -/
def insertByTsE (x : PlayEvent) : List PlayEvent → List PlayEvent
  | [] => [x]
  | y :: ys => if x.timestamp < y.timestamp then x :: y :: ys else y :: insertByTsE x ys

def sortByTsE (l : List PlayEvent) : List PlayEvent :=
  l.foldl (fun acc x => insertByTsE x acc) []

/-- The rebuild tool's own per-event summary rules (note: its
meaningful-play test and history trigger differ from the live flush
path, and its in-replay history limit is hardcoded to 50). -/
def rebuildStep (sum : DerivedSummary) (stats : PlayEvent) : DerivedSummary :=
  let sum := { sum with
    total_play_time := round2 (sum.total_play_time + stats.duration_played)
    total_foreground_playtime :=
      round2 (sum.total_foreground_playtime + optVal stats.foreground_duration)
    total_background_playtime :=
      round2 (sum.total_background_playtime + optVal stats.background_duration) }
  let ratio := if stats.total_length > 0 then stats.duration_played / stats.total_length else 0
  let meaningful := stats.event_type = "complete" ∨ stats.event_type = "listen" ∨
    ratio > 4/5 ∨ (stats.event_type ≠ "favorite" ∧ ratio > 1/5)
  let sum := if stats.event_type ≠ "favorite" ∧ meaningful then
    { sum with total_songs_played := sum.total_songs_played + 1 } else sum
  let sum := if stats.event_type = "skip" ∧ ratio < 1/5 then
    { sum with total_skipped := sum.total_skipped + 1 } else sum
  let sum := if meaningful then
    { sum with shuffle_state :=
        ⟨sum.shuffle_state.config,
         let history := sum.shuffle_state.history.filter
           (fun h => h.name ≠ stats.song_filename)
         let history := HistItem.entry stats.song_filename stats.timestamp :: history
         if history.length > 50 then history.take 50 else history⟩ }
    else sum
  if stats.event_type ≠ "favorite" ∧ ratio > 1/4 then
    { sum with total_songs_played_ratio_over_025 :=
        sum.total_songs_played_ratio_over_025 + 1 }
  else sum

/-- Python `s.platform or "unknown"` on the non-optional stored
platform column. -/
def platOrS (p : String) : String := if p = "" then "unknown" else p

/-- `migrate_skips_logic.rebuild_user_stats`: reclassify stored skips
in place, replay the rebuild rules over the updated events in
timestamp order from a reset summary, recount sessions and platform
usage from the session table, then copy the prior summary's shuffle
config over and re-truncate the history to that config's limit. -/
def rebuild_user_stats (store : StatsStore) (prior : DerivedSummary) :
    StatsStore × DerivedSummary :=
  let events := store.events.map rebuildFixSkip
  let sum := (sortByTsE events).foldl rebuildStep emptySummary
  let sum := { sum with
    total_sessions := store.sessions.length
    platform_usage := store.sessions.foldl
      (fun u (s : PlaySession) => bumpUsage u (platOrS s.platform)) [] }
  let cfg := prior.shuffle_state.config
  let hist := sum.shuffle_state.history
  let hist := if hist.length > cfg.limit then hist.take cfg.limit else hist
  (⟨store.sessions, events⟩, { sum with shuffle_state := ⟨cfg, hist⟩ })

/-- A stored event read back as a buffered report, for replaying the
live pipeline over the store.  The platform is taken from the event's
session row when present. -/
def eventToEntry (store : StatsStore) (e : PlayEvent) : StatsEntry :=
  { session_id := e.session_id
    song_filename := e.song_filename
    duration_played := e.duration_played
    total_length := e.total_length
    event_type := e.event_type
    timestamp := e.timestamp
    platform := (store.sessions.find? (fun ps => ps.id == e.session_id)).map (·.platform)
    foreground_duration := e.foreground_duration
    background_duration := e.background_duration }

/-- Modelled from the claim's words for the refinement comparison:
the summary obtained by replaying the live Classifier + Summary
Builder rules (the flush pipeline) over the full event store from an
empty store and an empty summary. -/
def specReplayFromEmpty (store : StatsStore) : DerivedSummary :=
  (flush_stats emptyStore emptySummary (store.events.map (eventToEntry store))).2

/-! Helper lemmas about the additive merge. -/

theorem mergeSessions_nil (acc : List PlaySession) : mergeSessions acc [] = acc := rfl

theorem mergeSessions_cons (acc : List PlaySession) (f : PlaySession) (F : List PlaySession) :
    mergeSessions acc (f :: F) =
      mergeSessions (if acc.any (fun a => a.id == f.id) then acc else acc ++ [f]) F := rfl

theorem mergeEvents_nil (acc : List PlayEvent) : mergeEvents acc [] = acc := rfl

theorem mergeEvents_cons (acc : List PlayEvent) (f : PlayEvent) (F : List PlayEvent) :
    mergeEvents acc (f :: F) =
      mergeEvents
        (if acc.any (fun a => a.timestamp == f.timestamp ∧ a.song_filename == f.song_filename)
         then acc else acc ++ [f]) F := rfl

theorem mergeSessions_extends : ∀ (F acc : List PlaySession),
    ∃ r, mergeSessions acc F = acc ++ r := by
  intro F
  induction F with
  | nil => intro acc; exact ⟨[], by simp [mergeSessions_nil]⟩
  | cons f F ih =>
    intro acc
    rw [mergeSessions_cons]
    by_cases h : acc.any (fun a => a.id == f.id) = true
    · rw [if_pos h]; exact ih acc
    · rw [if_neg h]
      obtain ⟨r, hr⟩ := ih (acc ++ [f])
      exact ⟨f :: r, by rw [hr]; simp⟩

theorem mergeEvents_extends : ∀ (F acc : List PlayEvent),
    ∃ r, mergeEvents acc F = acc ++ r := by
  intro F
  induction F with
  | nil => intro acc; exact ⟨[], by simp [mergeEvents_nil]⟩
  | cons f F ih =>
    intro acc
    rw [mergeEvents_cons]
    by_cases h : acc.any
        (fun a => a.timestamp == f.timestamp ∧ a.song_filename == f.song_filename) = true
    · rw [if_pos h]; exact ih acc
    · rw [if_neg h]
      obtain ⟨r, hr⟩ := ih (acc ++ [f])
      exact ⟨f :: r, by rw [hr]; simp⟩

theorem mergeSessions_mem : ∀ (F acc : List PlaySession) (s : PlaySession),
    s ∈ mergeSessions acc F → s ∈ acc ∨ ∀ a ∈ acc, a.id ≠ s.id := by
  intro F
  induction F with
  | nil => intro acc s hs; exact Or.inl (by simpa [mergeSessions_nil] using hs)
  | cons f F ih =>
    intro acc s hs
    rw [mergeSessions_cons] at hs
    by_cases h : acc.any (fun a => a.id == f.id) = true
    · rw [if_pos h] at hs
      exact ih acc s hs
    · rw [if_neg h] at hs
      rcases ih (acc ++ [f]) s hs with hmem | hnone
      · rcases List.mem_append.1 hmem with hacc | hf
        · exact Or.inl hacc
        · have hsf : s = f := by simpa using hf
          subst hsf
          refine Or.inr (fun a ha heq => h ?_)
          exact List.any_eq_true.mpr ⟨a, ha, by simp [heq]⟩
      · exact Or.inr (fun a ha => hnone a (List.mem_append.2 (Or.inl ha)))

theorem mergeEvents_mem : ∀ (F acc : List PlayEvent) (e : PlayEvent),
    e ∈ mergeEvents acc F → e ∈ acc ∨
      ∀ a ∈ acc, ¬(a.timestamp = e.timestamp ∧ a.song_filename = e.song_filename) := by
  intro F
  induction F with
  | nil => intro acc e he; exact Or.inl (by simpa [mergeEvents_nil] using he)
  | cons f F ih =>
    intro acc e he
    rw [mergeEvents_cons] at he
    by_cases h : acc.any
        (fun a => a.timestamp == f.timestamp ∧ a.song_filename == f.song_filename) = true
    · rw [if_pos h] at he
      exact ih acc e he
    · rw [if_neg h] at he
      rcases ih (acc ++ [f]) e he with hmem | hnone
      · rcases List.mem_append.1 hmem with hacc | hf
        · exact Or.inl hacc
        · have hef : e = f := by simpa using hf
          subst hef
          refine Or.inr (fun a ha heq => h ?_)
          exact List.any_eq_true.mpr ⟨a, ha, by simp [heq.1, heq.2]⟩
      · exact Or.inr (fun a ha => hnone a (List.mem_append.2 (Or.inl ha)))

/-- A concrete local store used by witnesses and counterexamples. -/
def c2L : StatsStore :=
  ⟨[⟨"s1", 1, 2, "ios"⟩],
   [⟨"s1", "a.mp3", "listen", 5, 10, 100, 1/10, none, none⟩]⟩

/-- A concrete foreign snapshot: one new session, one new event, and
one event colliding with the local (timestamp, song_filename) key
while its other fields differ. -/
def c2F : StatsStore :=
  ⟨[⟨"s2", 3, 4, "android"⟩],
   [⟨"s2", "b.mp3", "skip", 6, 1, 100, 1/100, none, none⟩,
    ⟨"s2", "a.mp3", "complete", 5, 99, 100, 99/100, none, none⟩]⟩

/-- C2: merging a foreign stats snapshot into an existing local store
is purely additive: the merged tables extend the local tables (every
local session and event row is still present, unmodified, in its
original position), a foreign session row present in the result but
not taken from the local table has an id that no local session carries,
and a foreign event row present in the result but not taken from the
local table has a (timestamp, song_filename) pair that no local event
carries, even when its other fields differ. -/
theorem mergeSnapshot_additive (L F : StatsStore) :
    (∃ r, (mergeStats L F).sessions = L.sessions ++ r) ∧
    (∃ r, (mergeStats L F).events = L.events ++ r) ∧
    (∀ s ∈ (mergeStats L F).sessions, s ∈ L.sessions ∨ ∀ a ∈ L.sessions, a.id ≠ s.id) ∧
    (∀ e ∈ (mergeStats L F).events, e ∈ L.events ∨
      ∀ a ∈ L.events, ¬(a.timestamp = e.timestamp ∧ a.song_filename = e.song_filename)) := by
  refine ⟨mergeSessions_extends F.sessions L.sessions,
    mergeEvents_extends F.events L.events, ?_, ?_⟩
  · exact fun s hs => mergeSessions_mem F.sessions L.sessions s hs
  · exact fun e he => mergeEvents_mem F.events L.events e he

/-- Witness for C2 at the concrete stores: the merged foreign session
"s2" collides with no local session id. -/
theorem mergeSnapshot_additive_witness :
    (⟨"s2", 3, 4, "android"⟩ : PlaySession) ∈ c2L.sessions ∨
      ∀ a ∈ c2L.sessions, a.id ≠ (PlaySession.id ⟨"s2", 3, 4, "android"⟩) :=
  (mergeSnapshot_additive c2L c2F).2.2.1 ⟨"s2", 3, 4, "android"⟩
    (by with_unfolding_all decide)

/-- C9: `UserService` defines no `recalculate_final_stats` method, so
for a user whose local stats store exists the upload endpoint commits
the additive merge and then fails with HTTP 500 "Stats merge failed";
the committed rows are kept (the resulting store is the merge, an
extension of the local store), so the store changes even though the
caller receives an error, as the concrete instance shows. -/
theorem upload_stats_merge_commits_then_fails :
    userServiceMethods.contains "recalculate_final_stats" = false ∧
    (∀ L F, upload_user_db_stats (some L) F =
      (some (mergeStats L F), Except.error "Stats merge failed")) ∧
    (∀ L F, ∃ r, (mergeStats L F).events = L.events ++ r) ∧
    (upload_user_db_stats (some c2L) c2F).1 ≠ some c2L := by
  have hc : userServiceMethods.contains "recalculate_final_stats" = false := by decide
  refine ⟨hc, ?_, ?_, ?_⟩
  · intro L F
    simp only [upload_user_db_stats]
    rw [hc]
    simp
  · intro L F
    exact mergeEvents_extends F.events L.events
  · with_unfolding_all decide

/-- A foreign snapshot holding two event rows that share the
(timestamp, song_filename) de-duplication key. -/
def c10F : StatsStore :=
  ⟨[], [⟨"s1", "a.mp3", "listen", 5, 10, 100, 1/10, none, none⟩,
        ⟨"s9", "a.mp3", "skip", 5, 1, 100, 1/100, none, none⟩]⟩

/-- C10: when the target user has no local stats store, the uploaded
database is installed wholesale and the endpoint reports success with
"stats created"; no per-row merge or de-duplication is applied (the
concrete snapshot with an internal duplicate key is kept verbatim,
although the additive merge path would have de-duplicated it), and the
merge path runs only when a local store exists. -/
theorem upload_stats_install_wholesale :
    (∀ F, upload_user_db_stats none F = (some F, Except.ok "stats created")) ∧
    upload_user_db_stats none c10F = (some c10F, Except.ok "stats created") ∧
    mergeStats emptyStore c10F ≠ c10F := by
  exact ⟨fun F => rfl, rfl, by with_unfolding_all decide⟩

/-- A skip report whose total_length is 0 (unresolvable track length),
so that total_length - duration_played ≤ 10 holds vacuously. -/
def c3bad : StatsEntry := ⟨"s1", "a.mp3", 3, 0, "skip", 1, some "unknown", none, none⟩

def c3ex95 : StatsEntry := ⟨"s1", "a.mp3", 95, 100, "skip", 1, some "unknown", none, none⟩

def c3ex899 : StatsEntry := ⟨"s1", "a.mp3", 899/10, 100, "skip", 1, some "unknown", none, none⟩

/-- C3 counterexample: the claim forces event_type to "complete"
whenever total_length - duration_played ≤ 10, but the code also
requires total_length > 0; at this concrete report the difference is
-3 ≤ 10 yet the stored type stays "skip". -/
theorem classifier_heuristic_counterexample :
    c3bad.total_length - c3bad.duration_played ≤ 10 ∧
    c3bad.event_type = "skip" ∧
    (mkPlayEvent (classify c3bad)).event_type ≠ "complete" := by
  with_unfolding_all decide

/-- C3 amended: for every coalesced event, the stored event_type is
forced to "complete" exactly when total_length > 0 and
total_length - duration_played ≤ 10, and play_ratio is computed after
the heuristic as duration_played/total_length (0 when
total_length ≤ 0) rounded to 2 decimals; in particular the
(100, 95, skip) report is stored as complete with ratio 0.95 and the
(100, 89.9, skip) report stays skip with ratio 0.90. -/
theorem classify_pos (s : StatsEntry)
    (h : s.total_length > 0 ∧ s.total_length - s.duration_played ≤ 10) :
    classify s = { s with event_type := "complete" } := by
  unfold classify
  rw [if_pos h]

theorem classify_neg (s : StatsEntry)
    (h : ¬(s.total_length > 0 ∧ s.total_length - s.duration_played ≤ 10)) :
    classify s = s := by
  unfold classify
  rw [if_neg h]

theorem mkPlayEvent_event_type (s : StatsEntry) :
    (mkPlayEvent s).event_type = s.event_type := rfl

theorem mkPlayEvent_play_ratio (s : StatsEntry) :
    (mkPlayEvent s).play_ratio =
      round2 (if s.total_length > 0 then s.duration_played / s.total_length else 0) := rfl

/-- C3 amended: for every coalesced event, the stored event_type is
forced to "complete" exactly when total_length > 0 and
total_length - duration_played ≤ 10, and play_ratio is computed after
the heuristic as duration_played/total_length (0 when
total_length ≤ 0) rounded to 2 decimals; in particular the
(100, 95, skip) report is stored as complete with ratio 0.95 and the
(100, 89.9, skip) report stays skip with ratio 0.90. -/
theorem classifier_heuristic_amended :
    (∀ s : StatsEntry,
      (mkPlayEvent (classify s)).event_type =
        (if s.total_length > 0 ∧ s.total_length - s.duration_played ≤ 10
         then "complete" else s.event_type) ∧
      (mkPlayEvent (classify s)).play_ratio =
        round2 (if s.total_length > 0 then s.duration_played / s.total_length else 0)) ∧
    (mkPlayEvent (classify c3ex95)).event_type = "complete" ∧
    (mkPlayEvent (classify c3ex95)).play_ratio = 95/100 ∧
    (mkPlayEvent (classify c3ex899)).event_type = "skip" ∧
    (mkPlayEvent (classify c3ex899)).play_ratio = 90/100 := by
  refine ⟨fun s => ⟨?_, ?_⟩, ?_, ?_, ?_, ?_⟩
  · by_cases h : s.total_length > 0 ∧ s.total_length - s.duration_played ≤ 10
    · rw [classify_pos s h, if_pos h, mkPlayEvent_event_type]
    · rw [classify_neg s h, if_neg h, mkPlayEvent_event_type]
  · by_cases h : s.total_length > 0 ∧ s.total_length - s.duration_played ≤ 10
    · rw [classify_pos s h, mkPlayEvent_play_ratio]
    · rw [classify_neg s h, mkPlayEvent_play_ratio]
  all_goals with_unfolding_all decide

/-- A client report whose total_length (1/3, i.e. 0.333...) is neither
2-decimal rounded nor equal to any metadata-resolved duration of
200. -/
def c6entry : StatsEntry :=
  ⟨"s1", "song.mp3", 50, 1/3, "listen", 7, some "unknown", none, none⟩

/-- A possible value of the metadata collaborator
(`music_service.get_song_duration`), which the filesystem determines;
here the track resolves to 200 seconds. -/
def c6resolver : String → ℚ := fun _ => 200

/-- C6 counterexample: `append_stats` buffers the client report
verbatim; the buffered entry keeps the client-supplied total_length
1/3, which differs from the metadata collaborator's 200 and is not
even rounded, so no resolution, ratio computation or rounding happens
at append time. -/
theorem appendStats_no_resolution_counterexample :
    append_stats [] c6entry = [c6entry] ∧
    c6entry.total_length ≠ c6resolver c6entry.song_filename ∧
    c6entry.total_length ≠ round2 c6entry.total_length := by
  with_unfolding_all decide

/-- C6 amended: an accepted report (positive duration, or a favorite
marker) is appended to the user's buffer unchanged — total_length is
trusted from the client and nothing is rounded at append time; the
rounding of all numeric fields and the play_ratio computation happen
at flush time when the durable PlayEvent row is built. -/
theorem appendStats_passthrough_amended :
    (∀ (buffer : List StatsEntry) (s : StatsEntry),
      ¬(s.duration_played ≤ 0 ∧ s.event_type ≠ "favorite") →
        append_stats buffer s = buffer ++ [s]) ∧
    (∀ (buffer : List StatsEntry) (s : StatsEntry),
      (s.duration_played ≤ 0 ∧ s.event_type ≠ "favorite") →
        append_stats buffer s = buffer) ∧
    (∀ c : StatsEntry, (mkPlayEvent c).total_length = round2 c.total_length ∧
      (mkPlayEvent c).duration_played = round2 c.duration_played ∧
      (mkPlayEvent c).play_ratio =
        round2 (if c.total_length > 0 then c.duration_played / c.total_length else 0)) := by
  refine ⟨?_, ?_, fun c => ⟨rfl, rfl, rfl⟩⟩
  · intro buffer s h
    simp [append_stats, h]
  · intro buffer s h
    simp [append_stats, h]

/-- Witness for C6 amended at the concrete report. -/
theorem appendStats_passthrough_witness :
    append_stats [] c6entry = [] ++ [c6entry] :=
  appendStats_passthrough_amended.1 [] c6entry (by with_unfolding_all decide)

/-- The maximal consecutive runs of reports sharing the accumulator's
(session_id, song_filename) key, starting from a given head. -/
def runsFrom (cur : StatsEntry) : List StatsEntry → List (StatsEntry × List StatsEntry)
  | [] => [(cur, [])]
  | n :: rest =>
    if sameRun n cur then
      match runsFrom n rest with
      | [] => [(cur, [n])]
      | (_, t) :: rs => (cur, n :: t) :: rs
    else (cur, []) :: runsFrom n rest

/-- A batch split into its maximal consecutive same-key runs, each as
a head report plus the rest of its run. -/
def runs : List StatsEntry → List (StatsEntry × List StatsEntry)
  | [] => []
  | e :: rest => runsFrom e rest

/-- Folding one run through the coalescer's pairwise merge. -/
def foldRun (p : StatsEntry × List StatsEntry) : StatsEntry :=
  p.2.foldl mergePair p.1

theorem runsFrom_head : ∀ (l : List StatsEntry) (cur : StatsEntry),
    ∃ t rs, runsFrom cur l = (cur, t) :: rs := by
  intro l
  induction l with
  | nil => intro cur; exact ⟨[], [], rfl⟩
  | cons n rest ih =>
    intro cur
    by_cases h : sameRun n cur
    · obtain ⟨t, rs, ht⟩ := ih n
      exact ⟨n :: t, rs, by simp [runsFrom, h, ht]⟩
    · exact ⟨[], runsFrom n rest, by simp [runsFrom, h]⟩

theorem runsFrom_congr : ∀ (l : List StatsEntry) (a b : StatsEntry),
    a.session_id = b.session_id → a.song_filename = b.song_filename →
    ∃ t rs, runsFrom a l = (a, t) :: rs ∧ runsFrom b l = (b, t) :: rs := by
  intro l
  induction l with
  | nil => intro a b _ _; exact ⟨[], [], rfl, rfl⟩
  | cons n rest ih =>
    intro a b h1 h2
    by_cases h : sameRun n a
    · have hb : sameRun n b := ⟨h.1.trans h1, h.2.trans h2⟩
      obtain ⟨t, rs, ht⟩ := runsFrom_head rest n
      exact ⟨n :: t, rs, by simp [runsFrom, h, ht], by simp [runsFrom, hb, ht]⟩
    · have hb : ¬ sameRun n b := fun hc => h ⟨hc.1.trans h1.symm, hc.2.trans h2.symm⟩
      exact ⟨[], runsFrom n rest, by simp [runsFrom, h], by simp [runsFrom, hb]⟩

theorem coalesceGo_runs : ∀ (l : List StatsEntry) (cur : StatsEntry),
    coalesceGo cur l = (runsFrom cur l).map foldRun := by
  intro l
  induction l with
  | nil => intro cur; rfl
  | cons n rest ih =>
    intro cur
    by_cases h : sameRun n cur
    · obtain ⟨t, rs, hA, hB⟩ := runsFrom_congr rest (mergePair cur n) n h.1.symm h.2.symm
      have lhs : coalesceGo cur (n :: rest) = ((mergePair cur n, t) :: rs).map foldRun := by
        rw [show coalesceGo cur (n :: rest) = coalesceGo (mergePair cur n) rest from by
          simp [coalesceGo, h]]
        rw [ih (mergePair cur n), hA]
      rw [lhs]
      have rhs : runsFrom cur (n :: rest) = (cur, n :: t) :: rs := by
        simp [runsFrom, h, hB]
      rw [rhs]
      rfl
    · simp only [coalesceGo, runsFrom, if_neg h, List.map_cons, ih n]
      rfl

theorem foldRun_key : ∀ (t : List StatsEntry) (h : StatsEntry),
    (t.foldl mergePair h).session_id = h.session_id ∧
    (t.foldl mergePair h).song_filename = h.song_filename := by
  intro t
  induction t with
  | nil => intro h; exact ⟨rfl, rfl⟩
  | cons x t ih => intro h; exact ih (mergePair h x)

theorem foldRun_duration : ∀ (t : List StatsEntry) (h : StatsEntry),
    (t.foldl mergePair h).duration_played =
      h.duration_played + (t.map StatsEntry.duration_played).sum := by
  intro t
  induction t with
  | nil => intro h; simp
  | cons x t ih =>
    intro h
    rw [List.foldl_cons, ih (mergePair h x)]
    simp [mergePair, add_assoc]

theorem foldRun_last : ∀ (t : List StatsEntry) (x h : StatsEntry),
    ((t ++ [x]).foldl mergePair h).event_type = x.event_type ∧
    ((t ++ [x]).foldl mergePair h).timestamp = x.timestamp ∧
    ((t ++ [x]).foldl mergePair h).platform = x.platform := by
  intro t x h
  rw [List.foldl_append]
  exact ⟨rfl, rfl, rfl⟩

theorem foldRun_fgbg : ∀ (t : List StatsEntry) (h : StatsEntry), t ≠ [] →
    (t.foldl mergePair h).foreground_duration =
      some (optVal h.foreground_duration +
        (t.map (fun e => optVal e.foreground_duration)).sum) ∧
    (t.foldl mergePair h).background_duration =
      some (optVal h.background_duration +
        (t.map (fun e => optVal e.background_duration)).sum) := by
  intro t
  induction t with
  | nil => intro h hne; exact absurd rfl hne
  | cons x t ih =>
    intro h _
    cases t with
    | nil => exact ⟨by simp [mergePair, optVal], by simp [mergePair, optVal]⟩
    | cons y t2 =>
      have hrec := ih (mergePair h x) (by simp)
      constructor
      · rw [List.foldl_cons, hrec.1]
        simp [mergePair, optVal, add_assoc]
      · rw [List.foldl_cons, hrec.2]
        simp [mergePair, optVal, add_assoc]

def c5r1 : StatsEntry := ⟨"s1", "a.mp3", 10, 200, "listen", 1, some "unknown", none, none⟩

def c5r2 : StatsEntry := ⟨"s1", "a.mp3", 15, 200, "listen", 2, some "unknown", none, none⟩

def c5r3 : StatsEntry := ⟨"s1", "a.mp3", 20, 200, "complete", 3, some "unknown", none, none⟩

/-- The single logical event the three fragment reports coalesce to:
duration 45, latest type/timestamp/platform, summed fg/bg. -/
def c5merged : StatsEntry :=
  ⟨"s1", "a.mp3", 45, 200, "complete", 3, some "unknown", some 0, some 0⟩

/-- C5: the coalescer merges each maximal run of consecutive reports
sharing (session_id, song_filename) into one logical event: the batch
maps run-by-run through the pairwise merge fold, whose result keeps
the run's key, sums duration_played, takes event_type, timestamp and
platform from the last report of the run, and sums foreground and
background durations independently treating absent as 0; in
particular the three buffered reports with durations 10, 15, 20 and
last type "complete" flush to exactly one event with duration 45 and
type "complete". -/
theorem coalescer_merges_runs :
    (∀ l, coalesce l = (runs l).map foldRun) ∧
    (∀ (t : List StatsEntry) (h : StatsEntry),
      (t.foldl mergePair h).session_id = h.session_id ∧
      (t.foldl mergePair h).song_filename = h.song_filename) ∧
    (∀ (t : List StatsEntry) (h : StatsEntry),
      (t.foldl mergePair h).duration_played =
        h.duration_played + (t.map StatsEntry.duration_played).sum) ∧
    (∀ (t : List StatsEntry) (x h : StatsEntry),
      ((t ++ [x]).foldl mergePair h).event_type = x.event_type ∧
      ((t ++ [x]).foldl mergePair h).timestamp = x.timestamp ∧
      ((t ++ [x]).foldl mergePair h).platform = x.platform) ∧
    (∀ (t : List StatsEntry) (h : StatsEntry), t ≠ [] →
      (t.foldl mergePair h).foreground_duration =
        some (optVal h.foreground_duration +
          (t.map (fun e => optVal e.foreground_duration)).sum) ∧
      (t.foldl mergePair h).background_duration =
        some (optVal h.background_duration +
          (t.map (fun e => optVal e.background_duration)).sum)) ∧
    coalesce (sortByTs [c5r1, c5r2, c5r3]) = [c5merged] := by
  refine ⟨?_, foldRun_key, foldRun_duration, foldRun_last, foldRun_fgbg, ?_⟩
  · intro l
    cases l with
    | nil => rfl
    | cons e rest => exact coalesceGo_runs rest e
  · with_unfolding_all decide

/-- Witness for C5 at the concrete three-report run. -/
theorem coalescer_merges_runs_witness :
    (([c5r2, c5r3]).foldl mergePair c5r1).foreground_duration =
      some (optVal c5r1.foreground_duration +
        (([c5r2, c5r3]).map (fun e => optVal e.foreground_duration)).sum) :=
  (coalescer_merges_runs.2.2.2.2.1 [c5r2, c5r3] c5r1 (by simp)).1

theorem truncate_eq_take (l : List HistItem) (n : ℕ) :
    (if l.length > n then l.take n else l) = l.take n := by
  split
  · rfl
  · exact (List.take_of_length_le (by omega)).symm

/-- The history update written as a single take: remove the filename,
push the new entry, truncate to the config's limit. -/
theorem historyUpdate_eq (cfg : ShuffleConfig) (old : List HistItem) (fn : String) (ts : ℚ) :
    historyUpdate ⟨cfg, old⟩ fn ts =
      ⟨cfg, (HistItem.entry fn ts :: old.filter (fun h => h.name ≠ fn)).take cfg.limit⟩ := by
  show (⟨cfg, if (HistItem.entry fn ts :: old.filter (fun h => h.name ≠ fn)).length > cfg.limit
        then (HistItem.entry fn ts :: old.filter (fun h => h.name ≠ fn)).take cfg.limit
        else HistItem.entry fn ts :: old.filter (fun h => h.name ≠ fn)⟩ : ShuffleState) = _
  rw [truncate_eq_take]

theorem historyUpdate_hist (sh : ShuffleState) (fn : String) (ts : ℚ) :
    (historyUpdate sh fn ts).history =
      (HistItem.entry fn ts :: sh.history.filter (fun h => h.name ≠ fn)).take sh.config.limit := by
  have h := historyUpdate_eq sh.config sh.history fn ts
  rw [show (⟨sh.config, sh.history⟩ : ShuffleState) = sh from rfl] at h
  rw [h]

theorem take_cons_take (x : HistItem) (l : List HistItem) (n : ℕ) :
    (x :: l.take n).take n = (x :: l).take n := by
  cases n with
  | zero => rfl
  | succ m =>
    rw [List.take_succ_cons, List.take_succ_cons, List.take_take]
    have hmin : min m (m + 1) = m := by omega
    rw [hmin]

/-- A timestamped history entry from a (filename, timestamp) pair. -/
def mkEnt (p : String × ℚ) : HistItem := HistItem.entry p.1 p.2

/-- A sequence of qualifying summary-builder history updates. -/
def playAll (sh : ShuffleState) (plays : List (String × ℚ)) : ShuffleState :=
  plays.foldl (fun s p => historyUpdate s p.1 p.2) sh

theorem playAll_from (cfg : ShuffleConfig) :
    ∀ (plays done : List (String × ℚ)),
      ((done ++ plays).map Prod.fst).Nodup →
      playAll ⟨cfg, (done.reverse.map mkEnt).take cfg.limit⟩ plays =
        ⟨cfg, ((done ++ plays).reverse.map mkEnt).take cfg.limit⟩ := by
  intro plays
  induction plays with
  | nil =>
    intro done _
    simp [playAll]
  | cons p rest ih =>
    intro done hnd
    have hp1 : ∀ q ∈ done, q.1 ≠ p.1 := by
      intro q hq heq
      rw [List.map_append] at hnd
      have hd := (List.nodup_append.1 hnd).2.2
      exact hd (List.mem_map_of_mem Prod.fst hq)
        (by rw [heq]; exact List.mem_cons_self _ _)
    have hfil : ((done.reverse.map mkEnt).take cfg.limit).filter
        (fun h => h.name ≠ p.1) = (done.reverse.map mkEnt).take cfg.limit := by
      apply List.filter_eq_self.mpr
      intro a ha
      have ha2 : a ∈ done.reverse.map mkEnt := List.take_subset _ _ ha
      obtain ⟨q, hq, rfl⟩ := List.mem_map.1 ha2
      have hqd : q ∈ done := List.mem_reverse.1 hq
      simpa [mkEnt, HistItem.name] using hp1 q hqd
    have hstep : historyUpdate ⟨cfg, (done.reverse.map mkEnt).take cfg.limit⟩ p.1 p.2 =
        ⟨cfg, (((done ++ [p]).reverse.map mkEnt).take cfg.limit)⟩ := by
      rw [historyUpdate_eq, hfil, show HistItem.entry p.1 p.2 = mkEnt p from rfl,
        take_cons_take]
      congr 1
      simp [mkEnt]
    have hrec := ih (done ++ [p]) (by simpa using hnd)
    calc playAll ⟨cfg, (done.reverse.map mkEnt).take cfg.limit⟩ (p :: rest)
        = playAll (historyUpdate ⟨cfg, (done.reverse.map mkEnt).take cfg.limit⟩ p.1 p.2)
            rest := rfl
      _ = playAll ⟨cfg, (((done ++ [p]).reverse.map mkEnt).take cfg.limit)⟩ rest := by
            rw [hstep]
      _ = ⟨cfg, (((done ++ [p]) ++ rest).reverse.map mkEnt).take cfg.limit⟩ := hrec
      _ = ⟨cfg, ((done ++ p :: rest).reverse.map mkEnt).take cfg.limit⟩ := by
            simp

theorem historyUpdate_len (sh : ShuffleState) (fn : String) (ts : ℚ) :
    (historyUpdate sh fn ts).history.length ≤ sh.config.limit := by
  rw [historyUpdate_hist]
  exact List.length_take_le _ _

theorem historyUpdate_nodup (sh : ShuffleState) (fn : String) (ts : ℚ)
    (hnd : (sh.history.map HistItem.name).Nodup) :
    ((historyUpdate sh fn ts).history.map HistItem.name).Nodup := by
  rw [historyUpdate_hist]
  have hsub : List.Sublist
      (((HistItem.entry fn ts :: sh.history.filter (fun h => h.name ≠ fn)).take
        sh.config.limit).map HistItem.name)
      ((HistItem.entry fn ts :: sh.history.filter (fun h => h.name ≠ fn)).map HistItem.name) :=
    (List.take_sublist _ _).map HistItem.name
  refine List.Nodup.sublist hsub ?_
  rw [List.map_cons]
  refine List.nodup_cons.mpr ⟨?_, ?_⟩
  · intro hmem
    obtain ⟨a, ha, hname⟩ := List.mem_map.1 hmem
    have := (List.mem_filter.1 ha).2
    rw [hname] at this
    simp [HistItem.name] at this
  · exact List.Nodup.sublist ((List.filter_sublist _).map HistItem.name) hnd

theorem historyUpdate_head (sh : ShuffleState) (fn : String) (ts : ℚ)
    (hl : 1 ≤ sh.config.limit) :
    (historyUpdate sh fn ts).history.head? = some (HistItem.entry fn ts) := by
  rw [historyUpdate_hist]
  cases hc : sh.config.limit with
  | zero => omega
  | succ m => rw [List.take_succ_cons]; rfl

/-- Sixty meaningful plays of sixty distinct songs. -/
def songPlays : List (String × ℚ) :=
  (List.range 60).map (fun i => ("song" ++ toString i, (i : ℚ)))

/-- The shuffle state after the sixty plays, starting from an empty
history with an empty config (history_limit defaults to 50). -/
def play60 : ShuffleState := playAll ⟨emptyShuffleConfig, []⟩ songPlays

/-- C7: after every summary-builder history update the history length
is at most the config's history_limit (default 50); one entry per
filename is preserved (a nodup history stays nodup since the played
filename is removed before the new entry is inserted at the front);
when the limit is at least 1 the most recent song is at the front; a
run of qualifying plays with pairwise-distinct filenames produces
exactly the most recent plays, newest first, truncated to the limit;
and in particular sixty meaningful plays of sixty distinct songs with
the default limit leave fifty entries, pairwise-distinct filenames,
equal to the fifty most recent plays newest first. -/
theorem shuffle_history_invariant :
    (∀ (sh : ShuffleState) (fn : String) (ts : ℚ),
      (historyUpdate sh fn ts).history.length ≤ sh.config.limit) ∧
    (∀ (sh : ShuffleState) (fn : String) (ts : ℚ),
      (sh.history.map HistItem.name).Nodup →
        ((historyUpdate sh fn ts).history.map HistItem.name).Nodup) ∧
    (∀ (sh : ShuffleState) (fn : String) (ts : ℚ),
      1 ≤ sh.config.limit →
        (historyUpdate sh fn ts).history.head? = some (HistItem.entry fn ts)) ∧
    (∀ (plays : List (String × ℚ)) (cfg : ShuffleConfig),
      (plays.map Prod.fst).Nodup →
        playAll ⟨cfg, []⟩ plays = ⟨cfg, (plays.reverse.map mkEnt).take cfg.limit⟩) ∧
    play60.history.length = 50 ∧
    (play60.history.map HistItem.name).Nodup ∧
    play60.history = (songPlays.reverse.map mkEnt).take 50 := by
  have hgen : ∀ (plays : List (String × ℚ)) (cfg : ShuffleConfig),
      (plays.map Prod.fst).Nodup →
        playAll ⟨cfg, []⟩ plays = ⟨cfg, (plays.reverse.map mkEnt).take cfg.limit⟩ := by
    intro plays cfg hnd
    have := playAll_from cfg plays [] (by simpa using hnd)
    simpa using this
  have hnd60 : (songPlays.map Prod.fst).Nodup := by
    with_unfolding_all decide
  have h60 : play60 = ⟨emptyShuffleConfig, (songPlays.reverse.map mkEnt).take 50⟩ := by
    have := hgen songPlays emptyShuffleConfig hnd60
    simpa [play60, emptyShuffleConfig, ShuffleConfig.limit] using this
  refine ⟨historyUpdate_len, historyUpdate_nodup, historyUpdate_head, hgen, ?_, ?_, ?_⟩
  · rw [h60]
    with_unfolding_all decide
  · rw [h60]
    with_unfolding_all decide
  · rw [h60]

/-- Witness for C7 at a concrete state: one update on an empty nodup
history with limit at least 1 keeps names nodup and puts the played
song in front. -/
theorem shuffle_history_invariant_witness :
    ((historyUpdate ⟨emptyShuffleConfig, []⟩ "a.mp3" 1).history.map HistItem.name).Nodup ∧
    (historyUpdate ⟨emptyShuffleConfig, []⟩ "a.mp3" 1).history.head? =
      some (HistItem.entry "a.mp3" 1) :=
  ⟨shuffle_history_invariant.2.1 ⟨emptyShuffleConfig, []⟩ "a.mp3" 1 (by simp),
   shuffle_history_invariant.2.2.1 ⟨emptyShuffleConfig, []⟩ "a.mp3" 1
     (by simp [emptyShuffleConfig, ShuffleConfig.limit])⟩

theorem widenSession_id (s : StatsEntry) (ps : PlaySession) :
    (widenSession s ps).id = ps.id := by
  unfold widenSession
  split <;> rfl

theorem classify_session_id (e : StatsEntry) : (classify e).session_id = e.session_id := by
  unfold classify
  split <;> rfl

theorem upsertSession_preserves (store : StatsStore) (e : StatsEntry) (sid : String)
    (h : ∃ ps ∈ store.sessions, ps.id = sid) :
    ∃ ps ∈ (upsertSession store e).sessions, ps.id = sid := by
  obtain ⟨ps, hmem, hid⟩ := h
  unfold upsertSession
  cases hf : store.sessions.find? (fun q => q.id == e.session_id) with
  | none => exact ⟨ps, List.mem_append.2 (Or.inl hmem), hid⟩
  | some q =>
    exact ⟨widenSession e ps, List.mem_map_of_mem (widenSession e) hmem,
      (widenSession_id e ps).trans hid⟩

theorem upsertSession_own (store : StatsStore) (e : StatsEntry) :
    ∃ ps ∈ (upsertSession store e).sessions, ps.id = e.session_id := by
  unfold upsertSession
  cases hf : store.sessions.find? (fun q => q.id == e.session_id) with
  | none =>
    exact ⟨⟨e.session_id, e.timestamp, e.timestamp, platOr e.platform⟩,
      List.mem_append.2 (Or.inr (by simp)), rfl⟩
  | some q =>
    have hq : q ∈ store.sessions := List.mem_of_find?_eq_some hf
    have hqe : q.id = e.session_id := by simpa using List.find?_some hf
    exact ⟨widenSession e q, List.mem_map_of_mem (widenSession e) hq,
      (widenSession_id e q).trans hqe⟩

theorem flushStep1F_sessions (acc : StatsStore × List StatsEntry) (e : StatsEntry) :
    (flushStep1F acc e).1.sessions = (upsertSession acc.1 e).sessions := rfl

theorem flushStep1F_snd (acc : StatsStore × List StatsEntry) (e : StatsEntry) :
    (flushStep1F acc e).2 = acc.2 ++ [classify e] := rfl

theorem flushStep1_fold_inv : ∀ (evs : List StatsEntry) (init : StatsStore × List StatsEntry),
    (∀ sid, (∃ ps ∈ init.1.sessions, ps.id = sid) →
      ∃ ps ∈ (evs.foldl flushStep1F init).1.sessions, ps.id = sid) ∧
    (∀ e ∈ (evs.foldl flushStep1F init).2, e ∈ init.2 ∨
      ∃ ps ∈ (evs.foldl flushStep1F init).1.sessions, ps.id = e.session_id) := by
  intro evs
  induction evs with
  | nil => intro init; exact ⟨fun sid h => h, fun e he => Or.inl he⟩
  | cons x evs ih =>
    intro init
    rw [List.foldl_cons]
    obtain ⟨ih1, ih2⟩ := ih (flushStep1F init x)
    constructor
    · intro sid h
      apply ih1
      rw [flushStep1F_sessions]
      exact upsertSession_preserves init.1 x sid h
    · intro e he
      rcases ih2 e he with hin | hst
      · rw [flushStep1F_snd] at hin
        rcases List.mem_append.1 hin with h1 | h2
        · exact Or.inl h1
        · have hx : e = classify x := by simpa using h2
          subst hx
          right
          apply ih1
          rw [flushStep1F_sessions, classify_session_id]
          exact upsertSession_own init.1 x
      · exact Or.inr hst

theorem summaryStep_counters (store : StatsStore) (acc : DerivedSummary × List String)
    (stats : StatsEntry) (h : ∃ ps ∈ store.sessions, ps.id = stats.session_id) :
    (summaryStep store acc stats).1.total_sessions = acc.1.total_sessions ∧
    (summaryStep store acc stats).1.platform_usage = acc.1.platform_usage := by
  have hfind : (store.sessions.find? (fun ps => ps.id == stats.session_id)).isNone = false := by
    obtain ⟨ps, hmem, hid⟩ := h
    have hsome : (store.sessions.find? (fun ps => ps.id == stats.session_id)).isSome = true :=
      List.find?_isSome.mpr ⟨ps, hmem, by simp [hid]⟩
    cases hf : store.sessions.find? (fun ps => ps.id == stats.session_id) with
    | none => rw [hf] at hsome; simp at hsome
    | some q => rfl
  have hA : (summaryStepA acc.1 stats).total_sessions = acc.1.total_sessions ∧
      (summaryStepA acc.1 stats).platform_usage = acc.1.platform_usage := by
    simp only [summaryStepA]
    split_ifs <;> exact ⟨rfl, rfl⟩
  by_cases hmem : stats.session_id ∈ acc.2
  · simp only [summaryStep, if_pos hmem]
    exact hA
  · simp only [summaryStep, if_neg hmem]
    rw [if_neg (by simp [hfind])]
    exact hA

theorem summary_fold_counters : ∀ (entries : List StatsEntry) (store : StatsStore)
    (acc : DerivedSummary × List String),
    (∀ e ∈ entries, ∃ ps ∈ store.sessions, ps.id = e.session_id) →
    (entries.foldl (summaryStep store) acc).1.total_sessions = acc.1.total_sessions ∧
    (entries.foldl (summaryStep store) acc).1.platform_usage = acc.1.platform_usage := by
  intro entries
  induction entries with
  | nil => intro store acc _; exact ⟨rfl, rfl⟩
  | cons x entries ih =>
    intro store acc hall
    rw [List.foldl_cons]
    have hx := summaryStep_counters store acc x (hall x (by simp))
    have hrest := ih store (summaryStep store acc x) (fun e he => hall e (by simp [he]))
    exact ⟨hrest.1.trans hx.1, hrest.2.trans hx.2⟩

/-- A single report carrying a session id never seen before. -/
def c4e : StatsEntry := ⟨"s1", "a.mp3", 30, 200, "listen", 100, some "ios", none, none⟩

/-- C4 as the code actually behaves: the summary step of the flush
checks whether the event's session is already in the PlaySession
store, but the SQL step of the same flush has already inserted (and
committed) that session, so the newness test never succeeds and
total_sessions and platform_usage are never incremented by a flush —
for any store, summary and buffer they come out unchanged; in the
concrete run, flushing a single event of the brand-new session "s1"
inserts the session row yet leaves total_sessions at 0 and
platform_usage empty, where the claim (and the source's own comment)
expect 1 and one "ios" entry. -/
theorem flush_never_increments_sessions :
    (∀ (store : StatsStore) (summary : DerivedSummary) (buffer : List StatsEntry),
      (flush_stats store summary buffer).2.total_sessions = summary.total_sessions ∧
      (flush_stats store summary buffer).2.platform_usage = summary.platform_usage) ∧
    (flush_stats emptyStore emptySummary [c4e]).1.sessions =
      [⟨"s1", 100, 100, "ios"⟩] ∧
    (flush_stats emptyStore emptySummary [c4e]).2.total_sessions = 0 ∧
    (flush_stats emptyStore emptySummary [c4e]).2.platform_usage = [] := by
  refine ⟨?_, ?_, ?_, ?_⟩
  · intro store summary buffer
    have hinv := flushStep1_fold_inv (coalesce (sortByTs buffer)) (store, [])
    have hall : ∀ e ∈ (flushStep1 store (coalesce (sortByTs buffer))).2,
        ∃ ps ∈ (flushStep1 store (coalesce (sortByTs buffer))).1.sessions,
          ps.id = e.session_id := by
      intro e he
      rcases hinv.2 e he with h0 | h1
      · simp at h0
      · exact h1
    exact summary_fold_counters _ _ (summary, []) hall
  · with_unfolding_all decide
  · with_unfolding_all decide
  · with_unfolding_all decide

/-- A store with one session and one stored listen event at 1% ratio:
the rebuild's classifier counts it as a meaningful play, the live
rules do not. -/
def c1store : StatsStore :=
  ⟨[⟨"s1", 100, 100, "ios"⟩],
   [⟨"s1", "a.mp3", "listen", 100, 1, 100, 1/100, none, none⟩]⟩

/-- C1 counterexample: at a concrete store the rebuilt summary differs
from a replay of the live Classifier + Summary Builder rules from an
empty summary in the fields the claim requires to agree: the rebuild
counts the 1%-ratio listen event as a meaningful play (its
meaningful-play test admits every complete/listen event) and counts
sessions from the PlaySession table, while the live rules count
neither. -/
theorem rebuild_differs_from_live_replay :
    (rebuild_user_stats c1store emptySummary).2.total_songs_played = 1 ∧
    (specReplayFromEmpty c1store).total_songs_played = 0 ∧
    (rebuild_user_stats c1store emptySummary).2.total_sessions = 1 ∧
    (specReplayFromEmpty c1store).total_sessions = 0 ∧
    (rebuild_user_stats c1store emptySummary).2.shuffle_state.history ≠
      (specReplayFromEmpty c1store).shuffle_state.history := by
  with_unfolding_all decide

/-- C1 amended: the rebuild recomputes the summary from the
event/session store alone using the rebuild tool's own rules (which
differ from the live flush classifier), and the prior summary's
shuffle_state.config — including its history_limit — survives the
rebuild untouched: the output depends on the prior summary only
through shuffle_state.config. -/
theorem rebuild_preserves_config :
    ∀ (store : StatsStore) (prior : DerivedSummary),
      (rebuild_user_stats store prior).2.shuffle_state.config =
        prior.shuffle_state.config ∧
      ∀ prior2 : DerivedSummary,
        prior2.shuffle_state.config = prior.shuffle_state.config →
          rebuild_user_stats store prior2 = rebuild_user_stats store prior := by
  intro store prior
  constructor
  · rfl
  · intro prior2 h
    unfold rebuild_user_stats
    rw [h]

/-- A prior summary agreeing with the empty one on shuffle config but
nowhere else. -/
def c1prior2 : DerivedSummary :=
  ⟨999, 7, 5, 4, 3, 2, 1, [("ios", 9)], ⟨emptyShuffleConfig, [HistItem.legacy "x.mp3"]⟩⟩

/-- Witness for C1 amended: two priors with the same config rebuild to
the same result on the concrete store. -/
theorem rebuild_preserves_config_witness :
    rebuild_user_stats c1store c1prior2 = rebuild_user_stats c1store emptySummary :=
  (rebuild_preserves_config c1store emptySummary).2 c1prior2 rfl

/-- The C8 scenario report: 120 of 200 seconds, completed. -/
def c8e : StatsEntry := ⟨"s1", "song.mp3", 120, 200, "complete", 10, some "ios", none, none⟩

/-- C8: reading the summary first flushes, so a freshly appended valid
event is always part of the flushed batch the returned summary
reflects; for a fresh user, appending the 120-of-200-seconds complete
event and reading the summary yields total_play_time 120 and the
song at the front of the shuffle history. -/
theorem getSummary_read_your_writes :
    (∀ (store : StatsStore) (summary : DerivedSummary) (buffer : List StatsEntry)
        (e : StatsEntry), e.duration_played > 0 →
      get_stats_summary store summary (append_stats buffer e) =
        (flush_stats store summary (buffer ++ [e])).2) ∧
    (get_stats_summary emptyStore emptySummary (append_stats [] c8e)).total_play_time = 120 ∧
    (get_stats_summary emptyStore emptySummary
        (append_stats [] c8e)).shuffle_state.history.head? =
      some (HistItem.entry "song.mp3" 10) := by
  refine ⟨?_, ?_, ?_⟩
  · intro store summary buffer e he
    unfold get_stats_summary append_stats
    rw [if_neg]
    rintro ⟨h1, _⟩
    exact absurd he (not_lt.2 h1)
  · with_unfolding_all decide
  · with_unfolding_all decide

/-- Witness for C8 at the concrete scenario. -/
theorem getSummary_read_your_writes_witness :
    get_stats_summary emptyStore emptySummary (append_stats [] c8e) =
      (flush_stats emptyStore emptySummary ([] ++ [c8e])).2 :=
  getSummary_read_your_writes.1 emptyStore emptySummary [] c8e
    (by with_unfolding_all decide)
